import Mathlib

/-!
Shallow embedding of the `wiring` dependency-injection library
(`wiring/graph.py`, `wiring/providers.py`, `wiring/scopes.py`,
`wiring/dependency.py`) in Lean 4, together with theorems settling the
specification claims about it.

Modelling conventions:

* Python dictionaries are modelled as insertion-ordered association lists
  (`List (κ × ν)`), matching CPython's insertion-ordered `dict` semantics:
  lookup finds the entry, assignment replaces an existing entry in place or
  appends a new one at the end, deletion removes the entry, and iteration
  follows the list order.
* Specifications are modelled as strings; any type with decidable equality
  would do, the library only hashes and compares them.
* Exceptions are modelled with `Except`; stateful operations return the
  state next to the `Except` result, because in Python the graph object
  (with all scope caches mutated so far) survives a raised exception.
* Ghost logs (`providerCalls`, `acquireCalls`) record provider invocations
  and `acquire` entries; they make "the provider is (not) invoked" and
  "no overrides propagate into the recursive call" observable. They are
  write-only and never influence the computation.
* Python's unbounded recursion is modelled with explicit fuel; running out
  of fuel is the analogue of `RecursionError`.
-/

namespace Wiring

/-! ### Association lists as Python dictionaries -/

/-- Dictionary lookup: first entry with the given key (keys are unique in
any list built by `aset`/`adel`, so "first" is immaterial). -/
def alookup {κ ν : Type} [DecidableEq κ] (k : κ) : List (κ × ν) → Option ν
| [] => none
| (k', v) :: rest => if k' = k then some v else alookup k rest

/-- Dictionary assignment `d[k] = v`: replace the binding in place if the
key is present, otherwise append the new binding at the end (CPython
insertion order). -/
def aset {κ ν : Type} [DecidableEq κ] (k : κ) (v : ν) : List (κ × ν) → List (κ × ν)
| [] => [(k, v)]
| (k', v') :: rest => if k' = k then (k, v) :: rest else (k', v') :: aset k v rest

/-- Dictionary deletion `del d[k]`: removes the binding for `k`. -/
def adel {κ ν : Type} [DecidableEq κ] (k : κ) : List (κ × ν) → List (κ × ν)
| [] => []
| (k', v') :: rest => if k' = k then adel k rest else (k', v') :: adel k rest

/-- Dictionary update `d.update(e)`: assign every binding of `e` into `d`,
in iteration order. -/
def aupdate {κ ν : Type} [DecidableEq κ] (d e : List (κ × ν)) : List (κ × ν) :=
e.foldl (fun acc p => aset p.1 p.2 acc) d

/-- The keys of a dictionary, in iteration order. -/
def akeys {κ ν : Type} (d : List (κ × ν)) : List κ :=
d.map Prod.fst

/-! ### Data model -/

/-- A specification: in Python any hashable object, modelled as a string. -/
abbrev Spec := String

/-- A scope type (the keys of `Graph.scopes`): in Python a class object such
as `SingletonScope`, modelled as a string tag. -/
abbrev ScopeTag := String

/-- Keys of an argument dictionary passed to `Graph.acquire`.
Integer keys name positional arguments, string keys name keyword
arguments; `invalid` stands for a key of any other Python type (for
example the tuple used in `graph_tests.test_acquire_arguments`). -/
inductive ArgKey : Type where
| pos : Int → ArgKey
| name : String → ArgKey
| invalid : String → ArgKey
deriving DecidableEq, Repr

/-- A value of a provider's `dependencies` dictionary
(`wiring/dependency.py`): either a plain specification or a
`Factory(spec)` wrapper requesting injection of a factory callable. -/
inductive Dependency : Type where
| plain : Spec → Dependency
| factory : Spec → Dependency
deriving DecidableEq, Repr

/-- The specification a dependency points at: `Factory` counts as an edge
to its wrapped specification (`graph.py` lines 317-318). -/
def unwrapDependency : Dependency → Spec
| Dependency.plain s => s
| Dependency.factory s => s

/-- Python objects flowing through the graph. `factoryClosure captured`
is the `_factory` closure created in `Graph.acquire` (graph.py lines
175-181): being a Python closure it captures the loop *variable*
`dependency_specification`, whose value once `acquire`'s loop has finished
is the dictionary's last dependency value; that captured value is stored
here. `wrapper` is the partially-applied wrapper a `FunctionProvider`
returns (its mechanics are modelled standalone below, see `wrapperInvoke`). -/
inductive Value : Type where
| int : Int → Value
| str : String → Value
| factoryClosure : Dependency → Value
| wrapper : List Value → List (String × Value) → Value

/-- Exceptions raised by the library. `typeErrorInvalidKey` and
`typeErrorUnexpectedKeyword` both model Python `TypeError`;
`recursionLimit` models Python's `RecursionError` for unbounded recursion
(the fuel running out). -/
inductive Err : Type where
| keyError : Spec → Err
| unknownScope : ScopeTag → Err
| typeErrorInvalidKey : ArgKey → Err
| typeErrorUnexpectedKeyword : String → Err
| attributeError : String → Err
| notCallable : Err
| missingDependency : Spec → Spec → Err
| selfDependency : Spec → Err
| dependencyCycle : List Spec → Err
| recursionLimit : Err

/-- The behaviour of a provider when called (`provider(*args, **kwargs)`,
graph.py line 203). `instanceValue` is an `InstanceProvider` (returns its
stored object, ignoring arguments); `factoryCall` is a `FactoryProvider`
wrapping a user callable, modelled as a Lean function from the positional
and keyword arguments to the result; `functionWrap` is a
`FunctionProvider`, which returns a stateful wrapper closed over the
arguments (the wrapped user function itself is modelled standalone for the
wrapper claims, because `Graph.register_function` can never construct a
`FunctionProvider` — see `register_function`). -/
inductive ProviderImpl : Type where
| instanceValue : Value → ProviderImpl
| factoryCall : (List Value → List (String × Value) → Value) → ProviderImpl
| functionWrap : ProviderImpl

/-- A provider (`wiring/providers.py`): its `dependencies` dictionary
(as computed by `get_dependencies`), its scope (the scope instance is
modelled by the tag under which its cache lives in the graph state), and
its call behaviour. -/
structure Provider : Type where
dependencies : List (ArgKey × Dependency)
scope : Option ScopeTag
impl : ProviderImpl

/-- A user callable together with the injection metadata that
`wiring.dependency.get_dependencies` extracts from it by introspection
(`__injection__` / default values); introspection itself is not modelled. -/
structure UserCallable : Type where
injection : List (ArgKey × Dependency)
impl : List Value → List (String × Value) → Value

/-- The scope type registered for `SingletonScope` in `Graph.__init__`. -/
def SingletonScope : ScopeTag := "SingletonScope"

/-- The scope type registered for `ProcessScope` in `Graph.__init__`.
Within a single process its cache behaves exactly like `SingletonScope`. -/
def ProcessScope : ScopeTag := "ProcessScope"

/-- The scope type registered for `ThreadScope` in `Graph.__init__`.
Within a single thread its cache behaves exactly like `SingletonScope`. -/
def ThreadScope : ScopeTag := "ThreadScope"

/-- The object graph (`Graph.__init__`): the `providers` dictionary, the
keys of the `scopes` dictionary, and the cache contents of every scope
instance (a total function, because a scope instance object keeps living
— and providers keep referencing it — even after `unregister_scope`). -/
structure Graph : Type where
providers : List (Spec × Provider)
scopes : List ScopeTag
caches : ScopeTag → List (Spec × Value)

/-- A freshly constructed `Graph()`: no providers, the three standard
scopes registered, all caches empty. -/
def Graph.empty : Graph :=
{ providers := []
  scopes := [SingletonScope, ProcessScope, ThreadScope]
  caches := fun _ => [] }

/-- Interpreter state: the graph plus ghost logs. `providerCalls` records
every `provider(*args, **kwargs)` invocation (specification and the fully
resolved argument dictionary), newest first; `acquireCalls` records every
entry into `Graph.acquire` (specification and the `arguments` parameter),
newest first. -/
structure St : Type where
g : Graph
providerCalls : List (Spec × List (ArgKey × Value))
acquireCalls : List (Spec × Option (List (ArgKey × Value)))

/-- A state with empty logs over a graph. -/
def St.ofGraph (g : Graph) : St :=
{ g := g, providerCalls := [], acquireCalls := [] }

/-! ### Registration surface (graph.py lines 217-281) -/

/-- `Graph.register_provider`: `self.providers[specification] = provider`,
overriding an existing provider. -/
def register_provider (g : Graph) (spec : Spec) (p : Provider) : Graph :=
{ g with providers := aset spec p g.providers }

/-- `Graph.unregister_provider`: `del self.providers[specification]`;
Python `del` raises `KeyError` when the key is absent. -/
def unregister_provider (g : Graph) (spec : Spec) : Except Err Graph :=
match alookup spec g.providers with
| none => Except.error (Err.keyError spec)
| some _ => Except.ok { g with providers := adel spec g.providers }

/-- `Graph.register_scope`: `self.scopes[scope_type] = instance`; only the
key set of the `scopes` dictionary is modelled (the instance's cache lives
in `Graph.caches`). -/
def register_scope (g : Graph) (tag : ScopeTag) : Graph :=
{ g with scopes := if tag ∈ g.scopes then g.scopes else g.scopes ++ [tag] }

/-- `Graph.unregister_scope`: `del self.scopes[scope_type]`. -/
def unregister_scope (g : Graph) (tag : ScopeTag) : Except Err Graph :=
if tag ∈ g.scopes then Except.ok { g with scopes := g.scopes.erase tag }
else Except.error (Err.keyError tag)

/-- `Graph.register_factory` (graph.py lines 232-245): resolve the scope
type in `self.scopes` (raising `UnknownScopeError` when unregistered) and
register `FactoryProvider(factory, scope=scope)`, whose `__init__` stores
`get_dependencies(factory)` and the scope. -/
def register_factory (g : Graph) (spec : Spec) (factory : UserCallable)
    (scope : Option ScopeTag) : Except Err Graph :=
match scope with
| some s =>
    if g.scopes.contains s then
      Except.ok (register_provider g spec
        { dependencies := factory.injection, scope := some s
          impl := ProviderImpl.factoryCall factory.impl })
    else Except.error (Err.unknownScope s)
| none =>
    Except.ok (register_provider g spec
      { dependencies := factory.injection, scope := none
        impl := ProviderImpl.factoryCall factory.impl })

/-- `Graph.register_instance` (graph.py lines 262-268): registers
`InstanceProvider(instance)`, which has no dependencies and no scope. -/
def register_instance (g : Graph) (spec : Spec) (v : Value) : Graph :=
register_provider g spec
  { dependencies := [], scope := none, impl := ProviderImpl.instanceValue v }

/-- Parameter names of `FunctionProvider.__init__` besides `self`
(providers.py line 103: `def __init__(self, function)`). Note the absence
of a `scope` parameter, in contrast to `FactoryProvider.__init__`
(providers.py line 68: `def __init__(self, factory, scope=None)`). -/
def functionProviderInitParams : List String := ["function"]

/-- Models evaluating the constructor call
`FunctionProvider(function, scope=scope)` performed by
`Graph.register_function` (graph.py lines 257-260): `function` is bound
positionally, and every keyword argument must name a remaining parameter
of `FunctionProvider.__init__`, otherwise Python raises
`TypeError: __init__() got an unexpected keyword argument`. Because
`functionProviderInitParams` has no `scope` entry the call always fails;
in the (unreachable) success branch the evidently intended
`FactoryProvider`-style semantics is written out: store the callable's
dependencies and the scope, and register the provider. -/
def callFunctionProviderInit (g : Graph) (spec : Spec) (function : UserCallable)
    (scopeArg : Option ScopeTag) (keywords : List String) : Except Err Graph :=
match keywords.find? (fun k => ! functionProviderInitParams.contains k) with
| some k => Except.error (Err.typeErrorUnexpectedKeyword k)
| none =>
    Except.ok (register_provider g spec
      { dependencies := function.injection, scope := scopeArg
        impl := ProviderImpl.functionWrap })

/-- `Graph.register_function` (graph.py lines 247-260): resolve the scope
type in `self.scopes` (raising `UnknownScopeError` when unregistered),
then evaluate `FunctionProvider(function, scope=scope)` — passing the
`scope` keyword argument in **every** case, including `scope=None`. -/
def register_function (g : Graph) (spec : Spec) (function : UserCallable)
    (scope : Option ScopeTag) : Except Err Graph :=
match scope with
| some s =>
    if g.scopes.contains s then callFunctionProviderInit g spec function (some s) ["scope"]
    else Except.error (Err.unknownScope s)
| none => callFunctionProviderInit g spec function none ["scope"]

/-! ### Argument partitioning (graph.py lines 186-202) -/

/-- The loop over `realized_dependencies` in `Graph.acquire`: integer keys
are collected (with their key) into the positional list in iteration
order, string keys go into the keyword dictionary, and any other key
raises `TypeError` at the moment it is encountered. -/
def partitionLoop : List (ArgKey × Value) → List (Int × Value) → List (String × Value) →
    Except Err (List (Int × Value) × List (String × Value))
| [], posAcc, kwAcc => Except.ok (posAcc, kwAcc)
| (ArgKey.pos i, v) :: rest, posAcc, kwAcc => partitionLoop rest (posAcc ++ [(i, v)]) kwAcc
| (ArgKey.name s, v) :: rest, posAcc, kwAcc => partitionLoop rest posAcc (aset s v kwAcc)
| (ArgKey.invalid t, _) :: _, _, _ => Except.error (Err.typeErrorInvalidKey (ArgKey.invalid t))

/-- Comparison by integer key, the `key=operator.itemgetter(0)` of the
`sorted` call in `Graph.acquire` (graph.py lines 199-202). -/
def keyLE (a b : Int × Value) : Prop := a.1 ≤ b.1

instance : DecidableRel keyLE := fun a b => inferInstanceAs (Decidable (a.1 ≤ b.1))

instance : IsTotal (Int × Value) keyLE := ⟨fun a b => Int.le_total a.1 b.1⟩

instance : IsTrans (Int × Value) keyLE := ⟨fun _ _ _ hab hbc => le_trans hab hbc⟩

/-- `sorted(args, key=operator.itemgetter(0))`: a stable sort by integer
key (any sort agrees with Python's on the duplicate-free keys a dict
produces). -/
def sortPositional (l : List (Int × Value)) : List (Int × Value) :=
List.insertionSort keyLE l

/-- Lines 186-202 of `Graph.acquire`: partition the fully resolved
argument dictionary into positional arguments (integer keys, sorted
ascending, keys dropped) and keyword arguments (string keys), raising
`TypeError` on a key of any other type. -/
def partitionArguments (m : List (ArgKey × Value)) :
    Except Err (List Value × List (String × Value)) :=
match partitionLoop m [] [] with
| Except.error e => Except.error e
| Except.ok (posAcc, kwAcc) => Except.ok ((sortPositional posAcc).map Prod.snd, kwAcc)

/-! ### Acquire and get (graph.py lines 142-215) -/

/-- `provider(*args, **kwargs)` (graph.py line 203), per provider kind:
`InstanceProvider.__call__` returns the stored instance,
`FactoryProvider.__call__` calls the wrapped factory, and
`FunctionProvider.__call__` returns a partially-applied wrapper closed
over the arguments (its later mutation is modelled by `wrapperInvoke`). -/
def invokeProvider (p : Provider) (args : List Value) (kwargs : List (String × Value)) : Value :=
match p.impl with
| ProviderImpl.instanceValue v => v
| ProviderImpl.factoryCall f => f args kwargs
| ProviderImpl.functionWrap => Value.wrapper args kwargs

/-- The final value of `acquire`'s loop variable
`dependency_specification`: the last value of the dependencies dictionary.
Every `_factory` closure created during the loop refers to this value once
the loop has finished (Python closures capture variables, not values). -/
def lastDependency (deps : List (ArgKey × Dependency)) : Option Dependency :=
(deps.map Prod.snd).getLast?

/-- `provider.scope[specification] = instance` (graph.py line 205): store
the created instance in the provider's scope cache. -/
def setCache (st : St) (tag : ScopeTag) (spec : Spec) (v : Value) : St :=
{ st with
    g := { st.g with
             caches := fun t => if t = tag then aset spec v (st.g.caches t) else st.g.caches t } }

/-- The dependency-resolution loop of `Graph.acquire` (graph.py lines
171-185). For each `(argument, dependency_specification)` entry not
already in `realized_dependencies`: a `Factory` dependency binds the
`_factory` closure (which captures the loop *variable*, here the final
loop value `lastDep`); any other dependency is resolved by a recursive
`self.acquire(dependency_specification)` with no arguments. `acqFn` is
that recursive call (it is `acquire` at one fuel less). -/
def realizeDeps (acqFn : St → Spec → (Except Err Value) × St) (lastDep : Option Dependency) :
    List (ArgKey × Dependency) → List (ArgKey × Value) → St →
    (Except Err (List (ArgKey × Value))) × St
| [], realized, st => (Except.ok realized, st)
| (argument, depSpec) :: rest, realized, st =>
    match alookup argument realized with
    | some _ => realizeDeps acqFn lastDep rest realized st
    | none =>
        match depSpec with
        | Dependency.factory _ =>
            realizeDeps acqFn lastDep rest
              (aset argument (Value.factoryClosure (lastDep.getD depSpec)) realized) st
        | Dependency.plain s =>
            match acqFn st s with
            | (Except.error e, st1) => (Except.error e, st1)
            | (Except.ok v, st1) => realizeDeps acqFn lastDep rest (aset argument v realized) st1

/-- Records the ghost-log entry for one invocation of
`provider(*args, **kwargs)`, keeping the fully resolved argument
dictionary it was partitioned from. -/
def logProviderCall (st : St) (spec : Spec) (m : List (ArgKey × Value)) : St :=
{ st with providerCalls := (spec, m) :: st.providerCalls }

/-- The cache-miss path of `Graph.acquire` (graph.py lines 171-206):
resolve the dependencies, partition the arguments, invoke the provider
(recorded in the ghost log), and store the instance in the provider's
scope when it has one. -/
def acquireResolve (acqFn : St → Spec → (Except Err Value) × St) (st : St) (spec : Spec)
    (provider : Provider) (realized : List (ArgKey × Value)) : (Except Err Value) × St :=
match realizeDeps acqFn (lastDependency provider.dependencies) provider.dependencies realized st with
| (Except.error e, st1) => (Except.error e, st1)
| (Except.ok m, st1) =>
    match partitionArguments m with
    | Except.error e => (Except.error e, st1)
    | Except.ok parted =>
        match provider.scope with
        | some tag =>
            (Except.ok (invokeProvider provider parted.1 parted.2),
             setCache (logProviderCall st1 spec m) tag spec
               (invokeProvider provider parted.1 parted.2))
        | none => (Except.ok (invokeProvider provider parted.1 parted.2), logProviderCall st1 spec m)

/-- Records the ghost-log entry for one entry into `Graph.acquire`. -/
def logAcquire (st : St) (spec : Spec) (arguments : Option (List (ArgKey × Value))) : St :=
{ st with acquireCalls := (spec, arguments) :: st.acquireCalls }

/-- `Graph.acquire` (graph.py lines 142-206). Copy the `arguments`
dictionary (or start empty), look the provider up (`KeyError` when the
specification is unknown), return the scope-cached instance immediately
when there is one, and otherwise resolve, invoke and cache. The recursive
dependency calls pass `arguments=None`. -/
def acquire : Nat → St → Spec → Option (List (ArgKey × Value)) → (Except Err Value) × St
| 0, st, _, _ => (Except.error Err.recursionLimit, st)
| Nat.succ fuel, st, spec, arguments =>
    match alookup spec st.g.providers with
    | none => (Except.error (Err.keyError spec), logAcquire st spec arguments)
    | some provider =>
        match provider.scope with
        | some tag =>
            match alookup spec (st.g.caches tag) with
            | some v => (Except.ok v, logAcquire st spec arguments)
            | none =>
                acquireResolve (fun st2 s => acquire fuel st2 s none)
                  (logAcquire st spec arguments) spec provider (arguments.getD [])
        | none =>
            acquireResolve (fun st2 s => acquire fuel st2 s none)
              (logAcquire st spec arguments) spec provider (arguments.getD [])

/-- `enumerate(args)` starting at index `i`, with the indices as
positional argument keys. -/
def enumerateFrom (i : Nat) : List Value → List (ArgKey × Value)
| [] => []
| v :: rest => (ArgKey.pos (Int.ofNat i), v) :: enumerateFrom (i + 1) rest

/-- `dict(enumerate(args))` in `Graph.get` (graph.py line 213): positional
arguments keyed 0, 1, 2, … in order. -/
def enumerateArguments (args : List Value) : List (ArgKey × Value) :=
enumerateFrom 0 args

/-- The argument dictionary `Graph.get` builds (graph.py lines 213-214):
`dict(enumerate(args))` then `update(kwargs)`. -/
def buildArguments (args : List Value) (kwargs : List (String × Value)) :
    List (ArgKey × Value) :=
aupdate (enumerateArguments args) (kwargs.map (fun p => (ArgKey.name p.1, p.2)))

/-- `Graph.get` (graph.py lines 208-215): pack the positional and keyword
arguments into an override dictionary and delegate to `acquire`. -/
def get (fuel : Nat) (st : St) (spec : Spec) (args : List Value)
    (kwargs : List (String × Value)) : (Except Err Value) × St :=
acquire fuel st spec (some (buildArguments args kwargs))

/-- Invoking an injected factory later (the body of `_factory`, graph.py
lines 175-180): `self.get(dependency_specification.specification, *args,
**kwargs)`. The captured loop variable need not be a `Factory` any more:
when it holds a plain specification (a string), accessing its
`.specification` attribute raises `AttributeError`; calling a non-closure
value raises `TypeError`. -/
def callFactoryClosure (fuel : Nat) (st : St) (v : Value) (args : List Value)
    (kwargs : List (String × Value)) : (Except Err Value) × St :=
match v with
| Value.factoryClosure (Dependency.factory s) => get fuel st s args kwargs
| Value.factoryClosure (Dependency.plain _) => (Except.error (Err.attributeError "specification"), st)
| _ => (Except.error Err.notCallable, st)

/-! ### Validation: Tarjan's strongly connected components
(graph.py lines 283-349) -/

/-- The mutable state of `Graph.validate`: the running `index` counter,
the `indices` and `lowlinks` dictionaries, and the node `stack` (top of
the Python list = head here). -/
structure TarjanSt : Type where
index : Nat
indices : List (Spec × Nat)
lowlinks : List (Spec × Nat)
stack : List Spec

/-- The initial `validate` state. -/
def TarjanSt.init : TarjanSt := { index := 0, indices := [], lowlinks := [], stack := [] }

/-- The component-popping loop (graph.py lines 338-342): pop stack
entries into `component` until the root `spec` itself is popped. Returns
the component (in pop order) and the remaining stack. `spec` is on the
stack whenever this is reached; on an (unreachable) empty stack the
accumulated component is returned. -/
def popComponent (spec : Spec) : List Spec → List Spec → List Spec × List Spec
| [], acc => (acc, [])
| top :: rest, acc =>
    if top = spec then (acc ++ [top], rest) else popComponent spec rest (acc ++ [top])

/-- A dictionary entry that is present by construction; the default for
the absent case mirrors the fact that Python would raise `KeyError`
— `indices[spec]` and `lowlinks[spec]` are set before every use. -/
def lookupNat (k : Spec) (m : List (Spec × Nat)) : Nat :=
(alookup k m).getD 0

/-- The dependency loop of `strongconnect` (graph.py lines 315-336) over
the *values* of the provider's dependencies dictionary. For each
dependency: unwrap `Factory`, raise `MissingDependencyError` when it has
no provider, raise `SelfDependencyError` when it equals the node itself,
recurse (`sc`, which is `strongconnect` at one fuel less) when unvisited
and fold its lowlink, or fold the index of an on-stack dependency. -/
def visitDeps (sc : TarjanSt → Spec → Except Err TarjanSt) (g : Graph) (spec : Spec) :
    List Dependency → TarjanSt → Except Err TarjanSt
| [], ts => Except.ok ts
| d :: rest, ts =>
    let dep := unwrapDependency d
    if (alookup dep g.providers).isNone then
      Except.error (Err.missingDependency spec dep)
    else if dep = spec then
      Except.error (Err.selfDependency spec)
    else if (alookup dep ts.indices).isNone then
      match sc ts dep with
      | Except.error e => Except.error e
      | Except.ok ts1 =>
          let low := min (lookupNat spec ts1.lowlinks) (lookupNat dep ts1.lowlinks)
          visitDeps sc g spec rest { ts1 with lowlinks := aset spec low ts1.lowlinks }
    else if ts.stack.contains dep then
      let low := min (lookupNat spec ts.lowlinks) (lookupNat dep ts.indices)
      visitDeps sc g spec rest { ts with lowlinks := aset spec low ts.lowlinks }
    else visitDeps sc g spec rest ts

/-- `strongconnect` (graph.py lines 308-344): assign the node the next
index and lowlink, push it, process its dependencies, and when the node
roots a strongly connected component pop the component — raising
`DependencyCycleError(reversed(component))` when it has more than one
member. -/
def strongconnect (g : Graph) : Nat → TarjanSt → Spec → Except Err TarjanSt
| 0, _, _ => Except.error Err.recursionLimit
| Nat.succ fuel, ts, spec =>
    let ts0 : TarjanSt :=
      { index := ts.index + 1
        indices := aset spec ts.index ts.indices
        lowlinks := aset spec ts.index ts.lowlinks
        stack := spec :: ts.stack }
    match alookup spec g.providers with
    | none => Except.error (Err.keyError spec)
    | some provider =>
        match visitDeps (strongconnect g fuel) g spec (provider.dependencies.map Prod.snd) ts0 with
        | Except.error e => Except.error e
        | Except.ok ts1 =>
            if lookupNat spec ts1.lowlinks = lookupNat spec ts1.indices then
              let popped := popComponent spec ts1.stack []
              if 1 < popped.1.length then
                Except.error (Err.dependencyCycle popped.1.reverse)
              else Except.ok { ts1 with stack := popped.2 }
            else Except.ok ts1

/-- The outer loop of `Graph.validate` (graph.py lines 346-348): run
`strongconnect` on every not-yet-visited registered specification, in
the providers dictionary's iteration order. -/
def validateLoop (g : Graph) (fuel : Nat) : List Spec → TarjanSt → Except Err TarjanSt
| [], ts => Except.ok ts
| spec :: rest, ts =>
    if (alookup spec ts.indices).isNone then
      match strongconnect g fuel ts spec with
      | Except.error e => Except.error e
      | Except.ok ts1 => validateLoop g fuel rest ts1
    else validateLoop g fuel rest ts

/-- `Graph.validate`: succeeds exactly when no validation error is
raised. The recursion depth of `strongconnect` is bounded by the number
of registered providers, so `length + 1` fuel never runs out. -/
def validate (g : Graph) : Except Err Unit :=
match validateLoop g (g.providers.length + 1) (g.providers.map Prod.fst) TarjanSt.init with
| Except.error e => Except.error e
| Except.ok _ => Except.ok ()

/-! ### The FunctionProvider wrapper (providers.py lines 109-119) -/

/-- The closed-over state of the wrapper returned by
`FunctionProvider.__call__`: the `args` list (`args = list(args)`) and the
`kwargs` dictionary. Both are mutated in place by every call of the
wrapper. -/
structure WrapperState (V : Type) : Type where
args : List V
kwargs : List (String × V)

/-- `args[:len(call_args)] = call_args`: replace the first
`call_args.length` elements of `args` (extending the list when it is
shorter). -/
def sliceAssign {V : Type} (args callArgs : List V) : List V :=
callArgs ++ args.drop callArgs.length

/-- `FunctionProvider.__call__` itself: capture the injected arguments
as the wrapper's initial state. -/
def functionProviderCall {V : Type} (args : List V) (kwargs : List (String × V)) :
    WrapperState V :=
{ args := args, kwargs := kwargs }

/-- One call of the wrapper (providers.py lines 114-117): assign the
supplied positional arguments over the stored ones, `kwargs.update` the
supplied keyword arguments, call the wrapped function on the *updated*
state — which persists for the next call. -/
def wrapperInvoke {V R : Type} (function : List V → List (String × V) → R)
    (w : WrapperState V) (callArgs : List V) (callKwargs : List (String × V)) :
    R × WrapperState V :=
let w1 : WrapperState V :=
  { args := sliceAssign w.args callArgs, kwargs := aupdate w.kwargs callKwargs }
(function w1.args w1.kwargs, w1)

/-! ### The dependency relation, and concrete example graphs -/

/-- `x` depends on `y` in `g`: `y` is among the (unwrapped) dependency
values of `x`'s provider. -/
def dependsOn (g : Graph) (x y : Spec) : Bool :=
match alookup x g.providers with
| none => false
| some p => (p.dependencies.map (fun q => unwrapDependency q.2)).contains y

/-- The cycle ordering stated by the spec (and by the docstring of
`DependencyCycleError`, graph.py lines 86-90): each element depends on the
previous element, and the first element depends on the last one. -/
def cycleEachDependsOnPrev (g : Graph) (c : List Spec) : Bool :=
((c.zip c.tail).all (fun p => dependsOn g p.2 p.1)) &&
  (match c.head?, c.getLast? with
   | some f, some l => dependsOn g f l
   | _, _ => true)

/-- The opposite cycle ordering: each element depends on the next element,
and the last element depends on the first one. -/
def cycleEachDependsOnNext (g : Graph) (c : List Spec) : Bool :=
((c.zip c.tail).all (fun p => dependsOn g p.1 p.2)) &&
  (match c.head?, c.getLast? with
   | some f, some l => dependsOn g l f
   | _, _ => true)

/-- A `FactoryProvider` with the given dependencies, no scope, and an
irrelevant result. -/
def simpleFactoryProvider (deps : List (ArgKey × Dependency)) : Provider :=
{ dependencies := deps, scope := none
  impl := ProviderImpl.factoryCall (fun _ _ => Value.int 0) }

/-- The dependency cycle of `graph_tests.test_dependency_cycle`:
`a` depends on `c`, `b` depends on `a`, `c` depends on `b`,
registered in the order a, b, c. -/
def cycleGraphTest : Graph :=
{ Graph.empty with
    providers :=
      [("a", simpleFactoryProvider [(ArgKey.pos 0, Dependency.plain "c")]),
       ("b", simpleFactoryProvider [(ArgKey.pos 0, Dependency.plain "a")]),
       ("c", simpleFactoryProvider [(ArgKey.pos 0, Dependency.plain "b")])] }

/-- The canonical three-element cycle `a → b → c → a` (each specification
depending on the next), registered in the order a, b, c. -/
def cycleGraphABC : Graph :=
{ Graph.empty with
    providers :=
      [("a", simpleFactoryProvider [(ArgKey.pos 0, Dependency.plain "b")]),
       ("b", simpleFactoryProvider [(ArgKey.pos 0, Dependency.plain "c")]),
       ("c", simpleFactoryProvider [(ArgKey.pos 0, Dependency.plain "a")])] }

/-- A provider whose dependencies dictionary has a `Factory` request for
`A` at key 0 followed by a `Factory` request for `B` at key 1, with
instance providers for `A` (the value 1) and `B` (the value 2). The
provider for `P` returns its first positional argument, i.e. the very
callable that was injected for key 0. -/
def lateBindingGraph : Graph :=
{ Graph.empty with
    providers :=
      [("A", { dependencies := [], scope := none
               impl := ProviderImpl.instanceValue (Value.int 1) }),
       ("B", { dependencies := [], scope := none
               impl := ProviderImpl.instanceValue (Value.int 2) }),
       ("P", { dependencies :=
                 [(ArgKey.pos 0, Dependency.factory "A"),
                  (ArgKey.pos 1, Dependency.factory "B")]
               scope := none
               impl := ProviderImpl.factoryCall (fun args _ => args.headD (Value.int 0)) })] }

/-- A user callable with no injected dependencies. -/
def trivialCallable : UserCallable :=
{ injection := [], impl := fun _ _ => Value.int 0 }

/-- The graph of `graph_tests.test_missing_dependency`: a provider for
`function` depending on the unregistered `foobar` (here through a
`Factory` request, to exercise the unwrapping of factory edges). -/
def missingGraphC6 : Graph :=
{ Graph.empty with
    providers := [("function", simpleFactoryProvider [(ArgKey.pos 0, Dependency.factory "foobar")])] }

/-- The graph of `graph_tests.test_self_dependency`: a provider for
`foobar` depending on `foobar` itself. -/
def selfGraphC6 : Graph :=
{ Graph.empty with
    providers := [("foobar", simpleFactoryProvider [(ArgKey.pos 0, Dependency.plain "foobar")])] }

/-- A provider for `s` cached in the singleton scope, holding 7, plus an
unscoped provider for `u`. -/
def scopedGraph : Graph :=
{ Graph.empty with
    providers :=
      [("s", { dependencies := [], scope := some SingletonScope
               impl := ProviderImpl.instanceValue (Value.int 7) }),
       ("u", { dependencies := [], scope := none
               impl := ProviderImpl.instanceValue (Value.int 9) })] }

/-- The scoped provider of `scopedGraph`. -/
def scopedProviderS : Provider :=
{ dependencies := [], scope := some SingletonScope
  impl := ProviderImpl.instanceValue (Value.int 7) }

/-- The instance provider holding 11, registered for `one`. -/
def instanceProvider11 : Provider :=
{ dependencies := [], scope := none, impl := ProviderImpl.instanceValue (Value.int 11) }

/-- A provider for `f` declaring injectable dependencies for both keys
`c` and `k`. -/
def overrideProviderF : Provider :=
{ dependencies := [(ArgKey.name "c", Dependency.plain "one"), (ArgKey.name "k", Dependency.plain "one")]
  scope := none
  impl := ProviderImpl.factoryCall (fun _ _ => Value.int 0) }

/-- The graph for the override-precedence witness. -/
def overrideGraph : Graph :=
{ Graph.empty with providers := [("one", instanceProvider11), ("f", overrideProviderF)] }

/-- A single dependency-free unscoped provider for `n`. -/
def invalidArgGraph : Graph :=
{ Graph.empty with
    providers :=
      [("n", { dependencies := [], scope := none
               impl := ProviderImpl.instanceValue (Value.int 0) })] }

/-- The provider of `invalidArgGraph`. -/
def invalidArgProviderN : Provider :=
{ dependencies := [], scope := none, impl := ProviderImpl.instanceValue (Value.int 0) }

/-! ### Observation predicates used by the claims -/

/-- Whether the provider's scope (if any) misses for `spec` — i.e. the
cache-hit short-circuit of `acquire` does not fire. -/
def scopeMiss (provider : Provider) (g : Graph) (spec : Spec) : Prop :=
match provider.scope with
| none => True
| some tag => alookup spec (g.caches tag) = none

/-- Whether an argument dictionary contains a key that is neither an
integer nor a string. -/
def hasInvalidKey : List (ArgKey × Value) → Bool
| [] => false
| (ArgKey.invalid _, _) :: _ => true
| _ :: rest => hasInvalidKey rest

/-- The first invalid key of an argument dictionary, in iteration order
— the one whose `TypeError` is raised. -/
def firstInvalidKey : List (ArgKey × Value) → Option String
| [] => none
| (ArgKey.invalid t, _) :: _ => some t
| _ :: rest => firstInvalidKey rest

/-- The integer-keyed entries of an argument dictionary, in iteration
order. -/
def positionalEntries : List (ArgKey × Value) → List (Int × Value)
| [] => []
| (ArgKey.pos i, v) :: rest => (i, v) :: positionalEntries rest
| _ :: rest => positionalEntries rest

/-- The string-keyed entries of an argument dictionary, in iteration
order. -/
def keywordEntries : List (ArgKey × Value) → List (String × Value)
| [] => []
| (ArgKey.name s, v) :: rest => (s, v) :: keywordEntries rest
| _ :: rest => keywordEntries rest

/-! ### Support lemmas -/

@[simp]
theorem alookup_nil {κ ν : Type} [DecidableEq κ] (k : κ) :
    alookup (ν := ν) k [] = none := rfl

@[simp]
theorem alookup_cons {κ ν : Type} [DecidableEq κ] (k k' : κ) (v : ν) (rest : List (κ × ν)) :
    alookup k ((k', v) :: rest) = if k' = k then some v else alookup k rest := rfl

theorem alookup_aset_self {κ ν : Type} [DecidableEq κ] (k : κ) (v : ν) :
    ∀ d : List (κ × ν), alookup k (aset k v d) = some v := by
  intro d
  induction d with
  | nil => simp [aset, alookup]
  | cons p rest ih =>
      obtain ⟨k', v'⟩ := p
      by_cases h : k' = k
      · simp [aset, alookup, h]
      · simp [aset, alookup, h, ih]

theorem alookup_aset_ne {κ ν : Type} [DecidableEq κ] (k k' : κ) (v : ν) (h : k' ≠ k) :
    ∀ d : List (κ × ν), alookup k (aset k' v d) = alookup k d := by
  intro d
  induction d with
  | nil => simp [aset, alookup, h]
  | cons p rest ih =>
      obtain ⟨k'', v''⟩ := p
      by_cases h2 : k'' = k'
      · subst h2
        simp [aset, alookup, h]
      · have hne : ¬ (k = k') := fun hh => h hh.symm
        by_cases h3 : k'' = k
        · simp [aset, alookup, h2, h3, hne]
        · simp [aset, alookup, h2, h3, ih]

theorem adel_aset_of_not_mem {κ ν : Type} [DecidableEq κ] (k : κ) (v : ν) :
    ∀ d : List (κ × ν), alookup k d = none → adel k (aset k v d) = d := by
  intro d
  induction d with
  | nil => simp [aset, adel]
  | cons p rest ih =>
      obtain ⟨k', v'⟩ := p
      intro h
      by_cases h2 : k' = k
      · simp [alookup, h2] at h
      · simp [alookup, h2] at h
        simp [aset, adel, h2, ih h]

theorem alookup_adel_self {κ ν : Type} [DecidableEq κ] (k : κ) :
    ∀ d : List (κ × ν), alookup k (adel k d) = none := by
  intro d
  induction d with
  | nil => simp [adel]
  | cons p rest ih =>
      obtain ⟨k', v'⟩ := p
      by_cases h : k' = k
      · simp [adel, h, ih]
      · simp [adel, alookup, h, ih]

@[simp]
theorem logAcquire_g (st : St) (spec : Spec) (a : Option (List (ArgKey × Value))) :
    (logAcquire st spec a).g = st.g := rfl

@[simp]
theorem logAcquire_providerCalls (st : St) (spec : Spec) (a : Option (List (ArgKey × Value))) :
    (logAcquire st spec a).providerCalls = st.providerCalls := rfl

@[simp]
theorem logAcquire_acquireCalls (st : St) (spec : Spec) (a : Option (List (ArgKey × Value))) :
    (logAcquire st spec a).acquireCalls = (spec, a) :: st.acquireCalls := rfl

@[simp]
theorem logProviderCall_g (st : St) (spec : Spec) (m : List (ArgKey × Value)) :
    (logProviderCall st spec m).g = st.g := rfl

@[simp]
theorem logProviderCall_providerCalls (st : St) (spec : Spec) (m : List (ArgKey × Value)) :
    (logProviderCall st spec m).providerCalls = (spec, m) :: st.providerCalls := rfl

@[simp]
theorem logProviderCall_acquireCalls (st : St) (spec : Spec) (m : List (ArgKey × Value)) :
    (logProviderCall st spec m).acquireCalls = st.acquireCalls := rfl

@[simp]
theorem setCache_g_providers (st : St) (tag : ScopeTag) (spec : Spec) (v : Value) :
    (setCache st tag spec v).g.providers = st.g.providers := rfl

@[simp]
theorem setCache_providerCalls (st : St) (tag : ScopeTag) (spec : Spec) (v : Value) :
    (setCache st tag spec v).providerCalls = st.providerCalls := rfl

@[simp]
theorem setCache_acquireCalls (st : St) (tag : ScopeTag) (spec : Spec) (v : Value) :
    (setCache st tag spec v).acquireCalls = st.acquireCalls := rfl

@[simp]
theorem setCache_caches_self (st : St) (tag : ScopeTag) (spec : Spec) (v : Value) :
    (setCache st tag spec v).g.caches tag = aset spec v (st.g.caches tag) := by
  simp [setCache]

/-- `realizeDeps` never changes the providers dictionary, provided its
recursive-acquire argument does not. -/
theorem realizeDeps_g_providers (acqFn : St → Spec → (Except Err Value) × St)
    (hacq : ∀ st s, ((acqFn st s).2).g.providers = st.g.providers)
    (lastD : Option Dependency) :
    ∀ (deps : List (ArgKey × Dependency)) (realized : List (ArgKey × Value)) (st : St),
      ((realizeDeps acqFn lastD deps realized st).2).g.providers = st.g.providers := by
  intro deps
  induction deps with
  | nil => intro realized st; rfl
  | cons hd tl ih =>
      intro realized st
      obtain ⟨argument, depSpec⟩ := hd
      simp only [realizeDeps]
      split
      · exact ih realized st
      · split
        · exact ih _ st
        · split
          · rename_i e st1 heq
            exact (congrArg (fun p => p.2.g.providers) heq).symm.trans (hacq st _)
          · rename_i v st1 heq
            exact (ih _ st1).trans
              ((congrArg (fun p => p.2.g.providers) heq).symm.trans (hacq st _))

/-- `acquireResolve` never changes the providers dictionary, provided its
recursive-acquire argument does not. -/
theorem acquireResolve_g_providers (acqFn : St → Spec → (Except Err Value) × St)
    (hacq : ∀ st s, ((acqFn st s).2).g.providers = st.g.providers)
    (st : St) (spec : Spec) (provider : Provider) (realized : List (ArgKey × Value)) :
    ((acquireResolve acqFn st spec provider realized).2).g.providers = st.g.providers := by
  have hreal := realizeDeps_g_providers acqFn hacq
    (lastDependency provider.dependencies) provider.dependencies realized st
  simp only [acquireResolve]
  split
  next e st1 heq =>
      rw [heq] at hreal
      exact hreal
  next m st1 heq =>
      rw [heq] at hreal
      split
      · exact hreal
      · split
        · simpa using hreal
        · simpa using hreal

/-- `acquire` never changes the providers dictionary. -/
theorem acquire_g_providers :
    ∀ (fuel : Nat) (st : St) (spec : Spec) (arguments : Option (List (ArgKey × Value))),
      ((acquire fuel st spec arguments).2).g.providers = st.g.providers := by
  intro fuel
  induction fuel with
  | zero => intro st spec arguments; rfl
  | succ n ih =>
      intro st spec arguments
      have hacq : ∀ (st2 : St) (s : Spec),
          (((fun st2 s => acquire n st2 s none) st2 s).2).g.providers = st2.g.providers :=
        fun st2 s => ih st2 s none
      simp only [acquire]
      split
      · rfl
      · rename_i provider heqp
        split
        · split
          · rfl
          · simpa using acquireResolve_g_providers _ hacq
              (logAcquire st spec arguments) spec provider (arguments.getD [])
        · simpa using acquireResolve_g_providers _ hacq
            (logAcquire st spec arguments) spec provider (arguments.getD [])

/-- `realizeDeps` adds only `arguments=None` entries to the acquire log,
provided its recursive-acquire argument does. -/
theorem realizeDeps_acquireCalls (acqFn : St → Spec → (Except Err Value) × St)
    (hacq : ∀ st s, ∃ recs, ((acqFn st s).2).acquireCalls = recs ++ st.acquireCalls
        ∧ ∀ e ∈ recs, e.2 = (none : Option (List (ArgKey × Value))))
    (lastD : Option Dependency) :
    ∀ (deps : List (ArgKey × Dependency)) (realized : List (ArgKey × Value)) (st : St),
      ∃ recs, ((realizeDeps acqFn lastD deps realized st).2).acquireCalls
          = recs ++ st.acquireCalls
        ∧ ∀ e ∈ recs, e.2 = (none : Option (List (ArgKey × Value))) := by
  intro deps
  induction deps with
  | nil => intro realized st; exact ⟨[], rfl, by intro e he; cases he⟩
  | cons hd tl ih =>
      intro realized st
      obtain ⟨argument, depSpec⟩ := hd
      simp only [realizeDeps]
      split
      · exact ih realized st
      · split
        · exact ih _ st
        · split
          · rename_i e st1 heq
            obtain ⟨recs, hrecs, hnone⟩ := hacq st _
            rw [heq] at hrecs
            exact ⟨recs, hrecs, hnone⟩
          · rename_i v st1 heq
            obtain ⟨recs1, hrecs1, hnone1⟩ := hacq st _
            rw [heq] at hrecs1
            have h1 : st1.acquireCalls = recs1 ++ st.acquireCalls := hrecs1
            obtain ⟨recs2, hrecs2, hnone2⟩ := ih (aset argument v realized) st1
            refine ⟨recs2 ++ recs1, ?_, ?_⟩
            · rw [hrecs2, h1, List.append_assoc]
            · intro e he
              rcases List.mem_append.mp he with h | h
              · exact hnone2 e h
              · exact hnone1 e h

/-- `acquireResolve` adds only `arguments=None` entries to the acquire
log, provided its recursive-acquire argument does. -/
theorem acquireResolve_acquireCalls (acqFn : St → Spec → (Except Err Value) × St)
    (hacq : ∀ st s, ∃ recs, ((acqFn st s).2).acquireCalls = recs ++ st.acquireCalls
        ∧ ∀ e ∈ recs, e.2 = (none : Option (List (ArgKey × Value))))
    (st : St) (spec : Spec) (provider : Provider) (realized : List (ArgKey × Value)) :
    ∃ recs, ((acquireResolve acqFn st spec provider realized).2).acquireCalls
        = recs ++ st.acquireCalls
      ∧ ∀ e ∈ recs, e.2 = (none : Option (List (ArgKey × Value))) := by
  obtain ⟨recs, hrecs, hnone⟩ := realizeDeps_acquireCalls acqFn hacq
    (lastDependency provider.dependencies) provider.dependencies realized st
  simp only [acquireResolve]
  split
  next e st1 heq =>
      rw [heq] at hrecs
      exact ⟨recs, hrecs, hnone⟩
  next m st1 heq =>
      rw [heq] at hrecs
      have h1 : st1.acquireCalls = recs ++ st.acquireCalls := hrecs
      split
      · exact ⟨recs, h1, hnone⟩
      · split
        · exact ⟨recs, by simpa using h1, hnone⟩
        · exact ⟨recs, by simpa using h1, hnone⟩

/-- A recursive `acquire` with `arguments=None` adds only
`arguments=None` entries to the acquire log. -/
theorem acquire_acquireCalls_none :
    ∀ (fuel : Nat) (st : St) (spec : Spec),
      ∃ recs, ((acquire fuel st spec none).2).acquireCalls = recs ++ st.acquireCalls
        ∧ ∀ e ∈ recs, e.2 = (none : Option (List (ArgKey × Value))) := by
  intro fuel
  induction fuel with
  | zero => intro st spec; exact ⟨[], rfl, by intro e he; cases he⟩
  | succ n ih =>
      intro st spec
      have hacq : ∀ (st2 : St) (s : Spec),
          ∃ recs, (((fun st2 s => acquire n st2 s none) st2 s).2).acquireCalls
              = recs ++ st2.acquireCalls
            ∧ ∀ e ∈ recs, e.2 = (none : Option (List (ArgKey × Value))) :=
        fun st2 s => ih st2 s
      simp only [acquire]
      split
      · refine ⟨[(spec, none)], by simp, ?_⟩
        intro e he
        rw [List.mem_singleton] at he
        rw [he]
      · split
        · split
          · refine ⟨[(spec, none)], by simp, ?_⟩
            intro e he
            rw [List.mem_singleton] at he
            rw [he]
          · obtain ⟨recs, hrecs, hnone⟩ := acquireResolve_acquireCalls _ hacq
              (logAcquire st spec none) spec _ ((none : Option (List (ArgKey × Value))).getD [])
            refine ⟨recs ++ [(spec, none)], ?_, ?_⟩
            · rw [hrecs]
              simp
            · intro e he
              rcases List.mem_append.mp he with h | h
              · exact hnone e h
              · rw [List.mem_singleton] at h
                rw [h]
        · obtain ⟨recs, hrecs, hnone⟩ := acquireResolve_acquireCalls _ hacq
            (logAcquire st spec none) spec _ ((none : Option (List (ArgKey × Value))).getD [])
          refine ⟨recs ++ [(spec, none)], ?_, ?_⟩
          · rw [hrecs]
            simp
          · intro e he
            rcases List.mem_append.mp he with h | h
            · exact hnone e h
            · rw [List.mem_singleton] at h
              rw [h]

/-- An entry already present in `realized_dependencies` (an override) is
never overwritten by the dependency-resolution loop. -/
theorem realizeDeps_preserves_entry (acqFn : St → Spec → (Except Err Value) × St)
    (lastD : Option Dependency) (k : ArgKey) (v : Value) :
    ∀ (deps : List (ArgKey × Dependency)) (realized : List (ArgKey × Value)) (st : St)
      (m : List (ArgKey × Value)) (st1 : St),
      alookup k realized = some v →
      realizeDeps acqFn lastD deps realized st = (Except.ok m, st1) →
      alookup k m = some v := by
  intro deps
  induction deps with
  | nil =>
      intro realized st m st1 hk hr
      simp only [realizeDeps] at hr
      injection hr with h1 h2
      injection h1 with h3
      rw [← h3]
      exact hk
  | cons hd tl ih =>
      intro realized st m st1 hk hr
      obtain ⟨argument, depSpec⟩ := hd
      simp only [realizeDeps] at hr
      split at hr
      · exact ih realized st m st1 hk hr
      · rename_i heqlk
        have hne : argument ≠ k := by
          intro hh
          rw [hh, hk] at heqlk
          cases heqlk
        split at hr
        · exact ih _ st m st1 (by rw [alookup_aset_ne k argument _ hne]; exact hk) hr
        · split at hr
          · rename_i e st2 heq
            injection hr with h1 h2
            cases h1
          · rename_i v2 st2 heq
            exact ih _ st2 m st1 (by rw [alookup_aset_ne k argument _ hne]; exact hk) hr

/-- Evaluating `acquire` on a scope-cache hit: the cached instance is
returned as-is and the only state change is the acquire-log entry. -/
theorem acquire_cache_hit (fuel : Nat) (st : St) (spec : Spec) (provider : Provider)
    (tag : ScopeTag) (v : Value) (arguments : Option (List (ArgKey × Value)))
    (hp : alookup spec st.g.providers = some provider)
    (hscope : provider.scope = some tag)
    (hc : alookup spec (st.g.caches tag) = some v) :
    acquire (fuel + 1) st spec arguments = (Except.ok v, logAcquire st spec arguments) := by
  simp only [acquire, hp, hscope, hc]

/-- Inversion of a successful `acquireResolve`: the dependency resolution
and the partition succeeded, the returned value is the provider's result,
the provider call is the newest log entry, and the scope cache was
written exactly when the provider has a scope. -/
theorem acquireResolve_ok (acqFn : St → Spec → (Except Err Value) × St) (st : St)
    (spec : Spec) (provider : Provider) (realized : List (ArgKey × Value))
    (v : Value) (st' : St)
    (h : acquireResolve acqFn st spec provider realized = (Except.ok v, st')) :
    ∃ m st1 args kwargs,
      realizeDeps acqFn (lastDependency provider.dependencies) provider.dependencies
          realized st = (Except.ok m, st1)
      ∧ partitionArguments m = Except.ok (args, kwargs)
      ∧ v = invokeProvider provider args kwargs
      ∧ ((provider.scope = none ∧ st' = logProviderCall st1 spec m)
        ∨ ∃ tag, provider.scope = some tag
            ∧ st' = setCache (logProviderCall st1 spec m) tag spec v) := by
  simp only [acquireResolve] at h
  split at h
  · rename_i e st1 heq
    injection h with h1 h2
    cases h1
  · rename_i m st1 heq
    split at h
    · rename_i e hpart
      injection h with h1 h2
      cases h1
    · rename_i parted hpart
      split at h
      · rename_i tag hsc
        injection h with h1 h2
        injection h1 with h3
        refine ⟨m, st1, parted.1, parted.2, heq, ?_, h3.symm, Or.inr ⟨tag, hsc, ?_⟩⟩
        · rw [hpart]
        · rw [← h2, h3]
      · rename_i hsc
        injection h with h1 h2
        injection h1 with h3
        exact ⟨m, st1, parted.1, parted.2, heq, by rw [hpart], h3.symm, Or.inl ⟨hsc, h2.symm⟩⟩

/-- Inversion of a successful `acquire` on a registered specification:
either the scope cache hit (and nothing but the acquire log changed), or
the cache missed and `acquireResolve` produced the result. -/
theorem acquire_ok_cases (fuel : Nat) (st : St) (spec : Spec) (provider : Provider)
    (arguments : Option (List (ArgKey × Value))) (v : Value) (st' : St)
    (hp : alookup spec st.g.providers = some provider)
    (h : acquire (fuel + 1) st spec arguments = (Except.ok v, st')) :
    (∃ tag, provider.scope = some tag ∧ alookup spec (st.g.caches tag) = some v
        ∧ st' = logAcquire st spec arguments)
    ∨ (scopeMiss provider st.g spec
        ∧ acquireResolve (fun st2 s => acquire fuel st2 s none)
            (logAcquire st spec arguments) spec provider (arguments.getD [])
          = (Except.ok v, st')) := by
  simp only [acquire, hp] at h
  split at h
  · rename_i tag hsc
    split at h
    · rename_i w hc
      injection h with h1 h2
      injection h1 with h3
      exact Or.inl ⟨tag, hsc, by rw [h3] at hc; exact hc, h2.symm⟩
    · rename_i hc
      refine Or.inr ⟨?_, h⟩
      simp only [scopeMiss, hsc]
      exact hc
  · rename_i hsc
    refine Or.inr ⟨?_, h⟩
    simp only [scopeMiss, hsc]

@[simp]
theorem aupdate_nil {κ ν : Type} [DecidableEq κ] (d : List (κ × ν)) : aupdate d [] = d := rfl

theorem aupdate_cons {κ ν : Type} [DecidableEq κ] (d : List (κ × ν)) (p : κ × ν)
    (e : List (κ × ν)) : aupdate d (p :: e) = aupdate (aset p.1 p.2 d) e := rfl

/-- Evaluating `partitionLoop` up to the first invalid key. -/
theorem partitionLoop_firstInvalid :
    ∀ (m : List (ArgKey × Value)) (posAcc : List (Int × Value))
      (kwAcc : List (String × Value)) (t : String),
      firstInvalidKey m = some t →
      partitionLoop m posAcc kwAcc = Except.error (Err.typeErrorInvalidKey (ArgKey.invalid t)) := by
  intro m
  induction m with
  | nil =>
      intro posAcc kwAcc t h
      simp [firstInvalidKey] at h
  | cons hd tl ih =>
      intro posAcc kwAcc t h
      obtain ⟨key, v⟩ := hd
      cases key with
      | pos i =>
          simp only [firstInvalidKey] at h
          simp only [partitionLoop]
          exact ih _ _ t h
      | name s =>
          simp only [firstInvalidKey] at h
          simp only [partitionLoop]
          exact ih _ _ t h
      | invalid t2 =>
          simp only [firstInvalidKey] at h
          injection h with h1
          rw [← h1]
          rfl

/-- A dictionary with an invalid key has a first invalid key. -/
theorem hasInvalid_exists_first :
    ∀ m : List (ArgKey × Value), hasInvalidKey m = true → ∃ t, firstInvalidKey m = some t := by
  intro m
  induction m with
  | nil => intro h; simp [hasInvalidKey] at h
  | cons hd tl ih =>
      intro h
      obtain ⟨key, v⟩ := hd
      cases key with
      | pos i =>
          simp only [hasInvalidKey] at h
          obtain ⟨t, ht⟩ := ih h
          exact ⟨t, by simpa [firstInvalidKey] using ht⟩
      | name s =>
          simp only [hasInvalidKey] at h
          obtain ⟨t, ht⟩ := ih h
          exact ⟨t, by simpa [firstInvalidKey] using ht⟩
      | invalid t2 => exact ⟨t2, rfl⟩

/-- Evaluating `partitionArguments` at the first invalid key. -/
theorem partitionArguments_firstInvalid (m : List (ArgKey × Value)) (t : String)
    (h : firstInvalidKey m = some t) :
    partitionArguments m = Except.error (Err.typeErrorInvalidKey (ArgKey.invalid t)) := by
  simp only [partitionArguments]
  rw [partitionLoop_firstInvalid m [] [] t h]

/-- Evaluating `partitionLoop` on a dictionary with no invalid key. -/
theorem partitionLoop_ok :
    ∀ (m : List (ArgKey × Value)) (posAcc : List (Int × Value))
      (kwAcc : List (String × Value)),
      hasInvalidKey m = false →
      partitionLoop m posAcc kwAcc
        = Except.ok (posAcc ++ positionalEntries m, aupdate kwAcc (keywordEntries m)) := by
  intro m
  induction m with
  | nil => intro posAcc kwAcc _; simp [partitionLoop, positionalEntries, keywordEntries]
  | cons hd tl ih =>
      intro posAcc kwAcc h
      obtain ⟨key, v⟩ := hd
      cases key with
      | pos i =>
          simp only [hasInvalidKey] at h
          simp only [partitionLoop, positionalEntries, keywordEntries]
          rw [ih _ _ h]
          simp
      | name s =>
          simp only [hasInvalidKey] at h
          simp only [partitionLoop, positionalEntries, keywordEntries]
          rw [ih _ _ h]
          rfl
      | invalid t =>
          simp only [hasInvalidKey] at h
          cases h

/-- Lookup of a positional key in `enumerate(args)` starting at `i`. -/
theorem alookup_enumerateFrom :
    ∀ (l : List Value) (i j : Nat),
      alookup (ArgKey.pos (Int.ofNat (i + j))) (enumerateFrom i l) = l.get? j := by
  intro l
  induction l with
  | nil => intro i j; simp [enumerateFrom]
  | cons v rest ih =>
      intro i j
      cases j with
      | zero =>
          simp [enumerateFrom, alookup]
      | succ j2 =>
          have hne : ArgKey.pos (Int.ofNat i) ≠ ArgKey.pos (Int.ofNat (i + Nat.succ j2)) := by
            intro hh
            injection hh with hh2
            have hh3 : i = i + Nat.succ j2 := Int.ofNat.inj hh2
            omega
          have hidx : i + Nat.succ j2 = (i + 1) + j2 := by omega
          simp only [enumerateFrom, alookup, if_neg hne, List.get?]
          rw [hidx]
          exact ih (i + 1) j2

/-- `enumerate(args)` contains no string keys. -/
theorem alookup_name_enumerateFrom :
    ∀ (l : List Value) (i : Nat) (s : String),
      alookup (ArgKey.name s) (enumerateFrom i l) = none := by
  intro l
  induction l with
  | nil => intro i s; rfl
  | cons v rest ih =>
      intro i s
      have hne : ArgKey.pos (Int.ofNat i) ≠ ArgKey.name s := by intro hh; cases hh
      simp only [enumerateFrom, alookup, if_neg hne]
      exact ih (i + 1) s

/-- `dict.update` with entries whose keys all differ from `k` does not
change the binding of `k`. -/
theorem alookup_aupdate_not_touched {κ ν : Type} [DecidableEq κ] :
    ∀ (e d : List (κ × ν)) (k : κ), (∀ p ∈ e, p.1 ≠ k) →
      alookup k (aupdate d e) = alookup k d := by
  intro e
  induction e with
  | nil => intro d k _; rfl
  | cons p e2 ih =>
      intro d k hp
      rw [aupdate_cons]
      rw [ih (aset p.1 p.2 d) k (fun q hq => hp q (List.mem_cons_of_mem p hq))]
      exact alookup_aset_ne k p.1 p.2 (hp p (List.mem_cons_self p e2)) d

/-- `dict.update` with name-keyed entries from a duplicate-free keyword
list: the binding of `name s` afterwards is exactly the keyword list's
binding of `s`, provided the dictionary had no binding for `name s`. -/
theorem alookup_name_aupdate_names :
    ∀ (kw : List (String × Value)) (d : List (ArgKey × Value)) (s : String),
      (kw.map Prod.fst).Nodup →
      alookup (ArgKey.name s) d = none →
      alookup (ArgKey.name s) (aupdate d (kw.map (fun p => (ArgKey.name p.1, p.2))))
        = alookup s kw := by
  intro kw
  induction kw with
  | nil => intro d s _ hd; simpa using hd
  | cons p kw2 ih =>
      intro d s hnodup hd
      obtain ⟨k0, v0⟩ := p
      rw [List.map_cons, List.nodup_cons] at hnodup
      obtain ⟨hk0, hnodup2⟩ := hnodup
      simp only [List.map_cons]
      rw [aupdate_cons]
      by_cases hs : k0 = s
      · subst hs
        have hnotouch : ∀ q ∈ kw2.map (fun p => (ArgKey.name p.1, p.2)),
            q.1 ≠ ArgKey.name k0 := by
          intro q hq
          obtain ⟨r, hr, hq2⟩ := List.mem_map.mp hq
          rw [← hq2]
          intro hh
          injection hh with hh2
          exact hk0 (by rw [← hh2]; exact List.mem_map.mpr ⟨r, hr, rfl⟩)
        rw [alookup_aupdate_not_touched _ _ _ hnotouch]
        rw [alookup_aset_self]
        simp [alookup]
      · have hne : ArgKey.name k0 ≠ ArgKey.name s := by
          intro hh
          injection hh with hh2
          exact hs hh2
        have hd2 : alookup (ArgKey.name s) (aset (ArgKey.name k0) v0 d) = none := by
          rw [alookup_aset_ne _ _ _ hne]
          exact hd
        rw [ih (aset (ArgKey.name k0) v0 d) s hnodup2 hd2]
        simp [alookup, hs]

/-- Evaluating `partitionArguments` on a dictionary with no invalid key:
the integer-keyed entries, sorted, with keys dropped, next to the
string-keyed entries folded into a dictionary. -/
theorem partitionArguments_ok (m : List (ArgKey × Value)) (h : hasInvalidKey m = false) :
    partitionArguments m
      = Except.ok ((sortPositional (positionalEntries m)).map Prod.snd,
          aupdate [] (keywordEntries m)) := by
  simp only [partitionArguments]
  rw [partitionLoop_ok m [] [] h]
  simp

/-! ### Claim theorems -/

/-- Claim C1: the claim states that `register_function(spec, callable,
scope)` — with `scope` either `None` or a registered scope type — always
succeeds and registers a `Function` provider. The code disagrees: the
call `FunctionProvider(function, scope=scope)` always raises `TypeError`,
because `FunctionProvider.__init__` has no `scope` parameter, so
registration fails for every input (this theorem evaluates the code on
the claim's inputs). -/
theorem claim_C1 (g : Graph) (spec : Spec) (fn : UserCallable) :
    register_function g spec fn none = Except.error (Err.typeErrorUnexpectedKeyword "scope")
    ∧ ∀ s : ScopeTag, g.scopes.contains s = true →
        register_function g spec fn (some s)
          = Except.error (Err.typeErrorUnexpectedKeyword "scope") := by
  refine ⟨rfl, ?_⟩
  intro s hs
  have hs' : s ∈ g.scopes := by simpa using hs
  simp [register_function, hs', callFunctionProviderInit, functionProviderInitParams]

/-- Witness for C1: the concrete registration performed by
`graph_tests.test_valid` (no scope), and one with the singleton scope,
both raise the `TypeError`. -/
theorem claim_C1_witness :
    register_function Graph.empty "db_connection_function" trivialCallable none
        = Except.error (Err.typeErrorUnexpectedKeyword "scope")
    ∧ register_function Graph.empty "db_connection_function" trivialCallable
        (some SingletonScope)
        = Except.error (Err.typeErrorUnexpectedKeyword "scope") :=
⟨(claim_C1 Graph.empty "db_connection_function" trivialCallable).1,
 (claim_C1 Graph.empty "db_connection_function" trivialCallable).2 SingletonScope rfl⟩

/-- Counterexample to claim C2: on the cycle of
`graph_tests.test_dependency_cycle` (`a` depends on `c`, `c` on `b`, `b`
on `a`), `validate` raises a dependency-cycle error carrying the cycle
`[a, c, b]` — and in that tuple it is *not* the case that each element
depends on the previous one and the first on the last (`c` does not
depend on `a`, and `a` does not depend on `b`). -/
theorem claim_C2_counterexample :
    validate cycleGraphTest = Except.error (Err.dependencyCycle ["a", "c", "b"])
    ∧ cycleEachDependsOnPrev cycleGraphTest ["a", "c", "b"] = false :=
⟨rfl, rfl⟩

/-- Claim C2 (amended): the carried cycle consists of exactly the members
of the strongly connected component, ordered so that each element depends
on the **next** element and the **last** element depends on the first —
the opposite orientation of the one claimed — as exhibited on the test's
three-element cycle and on the canonical cycle `a → b → c → a`. -/
theorem claim_C2 :
    (validate cycleGraphTest = Except.error (Err.dependencyCycle ["a", "c", "b"])
      ∧ cycleEachDependsOnNext cycleGraphTest ["a", "c", "b"] = true
      ∧ List.Perm ["a", "c", "b"] (cycleGraphTest.providers.map Prod.fst))
    ∧ (validate cycleGraphABC = Except.error (Err.dependencyCycle ["a", "b", "c"])
      ∧ cycleEachDependsOnNext cycleGraphABC ["a", "b", "c"] = true
      ∧ List.Perm ["a", "b", "c"] (cycleGraphABC.providers.map Prod.fst)) :=
⟨⟨rfl, rfl, by decide⟩, ⟨rfl, rfl, by decide⟩⟩

/-- Claim C3: the claim states that the callable bound for a
`FactoryRequest` for `S` under key `k` later resolves exactly `S`, *even
when other entries are iterated after `k`*. The code disagrees: the
`_factory` closure captures the loop variable, which after the loop holds
the **last** dependency value. On `lateBindingGraph`, the callable bound
for key 0 — whose request is `Factory("A")` — is closed over
`Factory("B")`, and invoking it yields `B`'s instance (2), not `A`'s
instance (1). This theorem evaluates the code at that failing input. -/
theorem claim_C3 :
    (acquire 5 (St.ofGraph lateBindingGraph) "P" none).1
        = Except.ok (Value.factoryClosure (Dependency.factory "B"))
    ∧ (callFactoryClosure 5 (St.ofGraph lateBindingGraph)
          (Value.factoryClosure (Dependency.factory "B")) [] []).1
        = Except.ok (Value.int 2)
    ∧ (acquire 5 (St.ofGraph lateBindingGraph) "A" none).1 = Except.ok (Value.int 1)
    ∧ Value.int 2 ≠ Value.int 1 := by
  refine ⟨rfl, rfl, rfl, ?_⟩
  intro h
  injection h with h2
  exact absurd h2 (by decide)

/-- Claim C6: during `validate`, a visited provider's dependency (with a
`Factory` counting as an edge to its wrapped specification) that has no
registered provider raises a missing-dependency error naming the
dependant and the missing specification; a dependency equal to the
visited specification raises a self-dependency error naming it. In both
cases the error is returned immediately: the remaining dependencies
(`rest`) and the recursion (`sc`) are arbitrary and unexamined, so no
further errors are collected. The last two conjuncts run the full
`validate` on the two test graphs. -/
theorem claim_C6 (sc : TarjanSt → Spec → Except Err TarjanSt) (g : Graph) (spec : Spec)
    (d : Dependency) (rest : List Dependency) (ts : TarjanSt) :
    (alookup (unwrapDependency d) g.providers = none →
        visitDeps sc g spec (d :: rest) ts
          = Except.error (Err.missingDependency spec (unwrapDependency d)))
    ∧ ((alookup (unwrapDependency d) g.providers).isSome = true →
        unwrapDependency d = spec →
        visitDeps sc g spec (d :: rest) ts = Except.error (Err.selfDependency spec))
    ∧ validate missingGraphC6 = Except.error (Err.missingDependency "function" "foobar")
    ∧ validate selfGraphC6 = Except.error (Err.selfDependency "foobar") := by
  refine ⟨?_, ?_, rfl, rfl⟩
  · intro h
    simp [visitDeps, h]
  · intro h1 h2
    rw [Option.isSome_iff_exists] at h1
    obtain ⟨p, hp⟩ := h1
    rw [h2] at hp
    simp [visitDeps, hp, h2]

/-- Witness for C6: the concrete missing-dependency and self-dependency
one-step visits produce exactly the claimed errors. -/
theorem claim_C6_witness :
    visitDeps (fun ts _ => Except.ok ts) missingGraphC6 "function"
        [Dependency.factory "foobar"] TarjanSt.init
      = Except.error (Err.missingDependency "function" "foobar")
    ∧ visitDeps (fun ts _ => Except.ok ts) selfGraphC6 "foobar"
        [Dependency.plain "foobar"] TarjanSt.init
      = Except.error (Err.selfDependency "foobar") :=
⟨(claim_C6 (fun ts _ => Except.ok ts) missingGraphC6 "function"
    (Dependency.factory "foobar") [] TarjanSt.init).1 rfl,
 (claim_C6 (fun ts _ => Except.ok ts) selfGraphC6 "foobar"
    (Dependency.plain "foobar") [] TarjanSt.init).2.1 rfl rfl⟩

/-- Claim C9: `register_provider` followed by `unregister_provider` for
the same specification leaves the specification unregistered — a
subsequent `acquire` or `get` raises the not-found `KeyError` — and when
the specification was not registered before, the resulting graph is
exactly the original one. -/
theorem claim_C9 (g : Graph) (spec : Spec) (p : Provider) :
    ∃ g2 : Graph,
      unregister_provider (register_provider g spec p) spec = Except.ok g2
      ∧ alookup spec g2.providers = none
      ∧ (∀ (fuel : Nat) (st : St) (arguments : Option (List (ArgKey × Value))), st.g = g2 →
          acquire (fuel + 1) st spec arguments
            = (Except.error (Err.keyError spec), logAcquire st spec arguments))
      ∧ (∀ (fuel : Nat) (st : St) (pos : List Value) (kw : List (String × Value)), st.g = g2 →
          (get (fuel + 1) st spec pos kw).1 = Except.error (Err.keyError spec))
      ∧ (alookup spec g.providers = none → g2 = g) := by
  refine ⟨{ g with providers := adel spec (aset spec p g.providers) }, ?_, ?_, ?_, ?_, ?_⟩
  · simp [unregister_provider, register_provider, alookup_aset_self]
  · exact alookup_adel_self spec _
  · intro fuel st arguments hst
    have hnone : alookup spec st.g.providers = none := by
      rw [hst]
      exact alookup_adel_self spec _
    simp only [acquire, hnone]
  · intro fuel st pos kw hst
    have hnone : alookup spec st.g.providers = none := by
      rw [hst]
      exact alookup_adel_self spec _
    simp only [get, acquire, hnone]
  · intro h
    rw [adel_aset_of_not_mem spec p g.providers h]

/-- Witness for C9: registering and unregistering `foo` on a fresh graph
returns exactly the fresh graph, and `acquire` then raises `KeyError`. -/
theorem claim_C9_witness :
    unregister_provider (register_provider Graph.empty "foo" (simpleFactoryProvider [])) "foo"
      = Except.ok Graph.empty
    ∧ (acquire 3 (St.ofGraph Graph.empty) "foo" none).1
      = Except.error (Err.keyError "foo") := by
  obtain ⟨g2, h1, h2, h3, h4, h5⟩ := claim_C9 Graph.empty "foo" (simpleFactoryProvider [])
  have hg : g2 = Graph.empty := h5 rfl
  constructor
  · rw [h1, hg]
  · rw [h3 2 (St.ofGraph Graph.empty) none (by rw [hg]; rfl)]

/-- Claim C4: for a provider under a caching scope, a cache hit returns
the cached instance with no provider invocation and no dependency
resolution (the entire state change is the one acquire-log entry); any
successful acquire of a scoped provider leaves its result in the scope
cache, and every subsequent acquire returns that identical instance by
cache hit; for a provider with no scope, every successful acquire invokes
the provider (a fresh provider-call log entry). -/
theorem claim_C4 :
    (∀ (fuel : Nat) (st : St) (spec : Spec) (provider : Provider) (tag : ScopeTag)
        (v : Value) (arguments : Option (List (ArgKey × Value))),
        alookup spec st.g.providers = some provider → provider.scope = some tag →
        alookup spec (st.g.caches tag) = some v →
        acquire (fuel + 1) st spec arguments = (Except.ok v, logAcquire st spec arguments))
    ∧ (∀ (fuel : Nat) (st : St) (spec : Spec) (provider : Provider) (tag : ScopeTag)
        (arguments : Option (List (ArgKey × Value))) (v : Value) (st' : St),
        alookup spec st.g.providers = some provider → provider.scope = some tag →
        acquire (fuel + 1) st spec arguments = (Except.ok v, st') →
        alookup spec (st'.g.caches tag) = some v
        ∧ ∀ (fuel2 : Nat) (arguments2 : Option (List (ArgKey × Value))),
            acquire (fuel2 + 1) st' spec arguments2
              = (Except.ok v, logAcquire st' spec arguments2))
    ∧ (∀ (fuel : Nat) (st : St) (spec : Spec) (provider : Provider)
        (arguments : Option (List (ArgKey × Value))) (v : Value) (st' : St),
        alookup spec st.g.providers = some provider → provider.scope = none →
        acquire (fuel + 1) st spec arguments = (Except.ok v, st') →
        ∃ m rest, st'.providerCalls = (spec, m) :: rest) := by
  refine ⟨?_, ?_, ?_⟩
  · exact fun fuel st spec provider tag v arguments hp hscope hc =>
      acquire_cache_hit fuel st spec provider tag v arguments hp hscope hc
  · intro fuel st spec provider tag arguments v st' hp hscope h
    have hcache : alookup spec (st'.g.caches tag) = some v := by
      rcases acquire_ok_cases fuel st spec provider arguments v st' hp h with
        ⟨tag2, hsc2, hc2, hst'⟩ | ⟨hmiss, hres⟩
      · rw [hscope] at hsc2
        injection hsc2 with h3
        rw [hst']
        simp only [logAcquire_g]
        rw [h3]
        exact hc2
      · obtain ⟨m, st1, args, kwargs, hreal, hpart, hv, hOr⟩ :=
          acquireResolve_ok _ _ _ _ _ _ _ hres
        rcases hOr with ⟨hnone2, _⟩ | ⟨tag2, hsc2, hst'⟩
        · rw [hscope] at hnone2
          cases hnone2
        · rw [hscope] at hsc2
          injection hsc2 with h3
          rw [hst', h3]
          simp [alookup_aset_self]
    refine ⟨hcache, ?_⟩
    intro fuel2 arguments2
    have hp' : alookup spec st'.g.providers = some provider := by
      have hpres := acquire_g_providers (fuel + 1) st spec arguments
      rw [h] at hpres
      have hpr : st'.g.providers = st.g.providers := hpres
      rw [hpr]
      exact hp
    exact acquire_cache_hit fuel2 st' spec provider tag v arguments2 hp' hscope hcache
  · intro fuel st spec provider arguments v st' hp hscope h
    rcases acquire_ok_cases fuel st spec provider arguments v st' hp h with
      ⟨tag2, hsc2, _, _⟩ | ⟨hmiss, hres⟩
    · rw [hscope] at hsc2
      cases hsc2
    · obtain ⟨m, st1, args, kwargs, hreal, hpart, hv, hOr⟩ :=
        acquireResolve_ok _ _ _ _ _ _ _ hres
      rcases hOr with ⟨_, hst'⟩ | ⟨tag2, hsc2, _⟩
      · exact ⟨m, st1.providerCalls, by rw [hst']; rfl⟩
      · rw [hscope] at hsc2
        cases hsc2

/-- Witness for C4: after the first acquire of the singleton-scoped `s`
on `scopedGraph`, the cache holds the created instance, and a second
acquire returns the identical instance while changing nothing but the
acquire log. -/
theorem claim_C4_witness :
    alookup "s" ((((acquire 1 (St.ofGraph scopedGraph) "s" none).2).g).caches SingletonScope)
      = some (Value.int 7)
    ∧ acquire 1 ((acquire 1 (St.ofGraph scopedGraph) "s" none).2) "s" none
      = (Except.ok (Value.int 7),
         logAcquire ((acquire 1 (St.ofGraph scopedGraph) "s" none).2) "s" none) := by
  have h := (claim_C4).2.1 0 (St.ofGraph scopedGraph) "s" scopedProviderS SingletonScope
    none (Value.int 7) ((acquire 1 (St.ofGraph scopedGraph) "s" none).2) rfl rfl rfl
  exact ⟨h.1, h.2 0 none⟩

/-- Claim C5: an override entry `k ↦ v` passed to `acquire` reaches the
provider unchanged — the fully resolved argument dictionary of the
provider invocation (the newest provider-call log entry) still maps `k`
to `v`, even when the provider declares an injectable dependency for `k`
— and the override dictionary is not propagated into the recursive
acquire calls: every acquire-log entry recorded below the outermost call
carries `arguments=None`. -/
theorem claim_C5 :
    (∀ (fuel : Nat) (st : St) (spec : Spec) (provider : Provider)
        (args : List (ArgKey × Value)) (k : ArgKey) (v w : Value) (st' : St),
        alookup spec st.g.providers = some provider →
        alookup k args = some v →
        scopeMiss provider st.g spec →
        acquire (fuel + 1) st spec (some args) = (Except.ok w, st') →
        ∃ m, st'.providerCalls.head? = some (spec, m) ∧ alookup k m = some v)
    ∧ (∀ (fuel : Nat) (st : St) (spec : Spec) (args : List (ArgKey × Value)),
        ∃ recs, ((acquire (fuel + 1) st spec (some args)).2).acquireCalls
            = recs ++ (spec, some args) :: st.acquireCalls
          ∧ ∀ e ∈ recs, e.2 = (none : Option (List (ArgKey × Value)))) := by
  constructor
  · intro fuel st spec provider args k v w st' hp hk hmiss h
    rcases acquire_ok_cases fuel st spec provider (some args) w st' hp h with
      ⟨tag2, hsc2, hc2, _⟩ | ⟨_, hres⟩
    · simp only [scopeMiss, hsc2] at hmiss
      rw [hmiss] at hc2
      cases hc2
    · obtain ⟨m, st1, pargs, pkwargs, hreal, hpart, hv, hOr⟩ :=
        acquireResolve_ok _ _ _ _ _ _ _ hres
      have hkm : alookup k m = some v :=
        realizeDeps_preserves_entry _ _ k v provider.dependencies _ _ m st1 hk hreal
      rcases hOr with ⟨_, hst'⟩ | ⟨tag, _, hst'⟩
      · exact ⟨m, by rw [hst']; rfl, hkm⟩
      · exact ⟨m, by rw [hst']; rfl, hkm⟩
  · intro fuel st spec args
    have hacq : ∀ (st2 : St) (s : Spec),
        ∃ recs, (((fun st2 s => acquire fuel st2 s none) st2 s).2).acquireCalls
            = recs ++ st2.acquireCalls
          ∧ ∀ e ∈ recs, e.2 = (none : Option (List (ArgKey × Value))) :=
      fun st2 s => acquire_acquireCalls_none fuel st2 s
    simp only [acquire]
    split
    · exact ⟨[], rfl, by intro e he; cases he⟩
    · split
      · split
        · exact ⟨[], rfl, by intro e he; cases he⟩
        · obtain ⟨recs, hrecs, hnone⟩ := acquireResolve_acquireCalls _ hacq
            (logAcquire st spec (some args)) spec _ ((some args).getD [])
          exact ⟨recs, by rw [hrecs]; rfl, hnone⟩
      · obtain ⟨recs, hrecs, hnone⟩ := acquireResolve_acquireCalls _ hacq
          (logAcquire st spec (some args)) spec _ ((some args).getD [])
        exact ⟨recs, by rw [hrecs]; rfl, hnone⟩

/-- Witness for C5: acquiring `f` with the override `k ↦ 99` — although
`f` declares an injectable dependency for `k` — invokes `f`'s provider
with `k ↦ 99` (and the injected `c ↦ 11`). -/
theorem claim_C5_witness :
    (((acquire 2 (St.ofGraph overrideGraph) "f"
          (some [(ArgKey.name "k", Value.int 99)])).2).providerCalls.head?)
      = some ("f", [(ArgKey.name "k", Value.int 99), (ArgKey.name "c", Value.int 11)])
    ∧ alookup (ArgKey.name "k")
        [(ArgKey.name "k", Value.int 99), (ArgKey.name "c", Value.int 11)]
      = some (Value.int 99) := by
  obtain ⟨m, hm, hv⟩ := (claim_C5).1 1 (St.ofGraph overrideGraph) "f" overrideProviderF
    [(ArgKey.name "k", Value.int 99)] (ArgKey.name "k") (Value.int 99) (Value.int 0)
    ((acquire 2 (St.ofGraph overrideGraph) "f" (some [(ArgKey.name "k", Value.int 99)])).2)
    rfl rfl trivial rfl
  have hcomp : (((acquire 2 (St.ofGraph overrideGraph) "f"
      (some [(ArgKey.name "k", Value.int 99)])).2).providerCalls.head?)
      = some ("f", [(ArgKey.name "k", Value.int 99), (ArgKey.name "c", Value.int 11)]) := rfl
  rw [hcomp] at hm
  injection hm with hm2
  injection hm2 with hm3 hm4
  constructor
  · exact hcomp
  · rw [hm4]
    exact hv

/-- Evaluating `acquireResolve` when the dependency resolution succeeded
but the partition raises: the error propagates with the state exactly as
the resolution left it — the provider is not invoked and no cache is
written. -/
theorem acquireResolve_partition_error (acqFn : St → Spec → (Except Err Value) × St)
    (st : St) (spec : Spec) (provider : Provider) (realized : List (ArgKey × Value))
    (m : List (ArgKey × Value)) (st1 : St) (e : Err)
    (hreal : realizeDeps acqFn (lastDependency provider.dependencies)
        provider.dependencies realized st = (Except.ok m, st1))
    (hpart : partitionArguments m = Except.error e) :
    acquireResolve acqFn st spec provider realized = (Except.error e, st1) := by
  simp only [acquireResolve]
  split
  · rename_i e2 st2 heq
    rw [hreal] at heq
    injection heq with h1 h2
    cases h1
  · rename_i m2 st2 heq
    rw [hreal] at heq
    injection heq with h1 h2
    injection h1 with h3
    subst h3
    subst h2
    split
    · rename_i e2 hpart2
      rw [hpart] at hpart2
      injection hpart2 with h4
      rw [h4]
    · rename_i parted hpart2
      rw [hpart] at hpart2
      cases hpart2

/-- Claim C8: a fully resolved argument dictionary containing a key that
is neither an integer nor a string makes `acquire` raise `TypeError` (at
the first such key), and the provider is not invoked: the final state is
exactly the one the dependency resolution produced, with no
provider-call log entry and no cache write. -/
theorem claim_C8 :
    (∀ (m : List (ArgKey × Value)), hasInvalidKey m = true →
        ∃ t, firstInvalidKey m = some t
          ∧ partitionArguments m = Except.error (Err.typeErrorInvalidKey (ArgKey.invalid t)))
    ∧ (∀ (fuel : Nat) (st : St) (spec : Spec) (provider : Provider)
        (args m : List (ArgKey × Value)) (st1 : St) (t : String),
        alookup spec st.g.providers = some provider →
        scopeMiss provider st.g spec →
        realizeDeps (fun st2 s => acquire fuel st2 s none)
            (lastDependency provider.dependencies) provider.dependencies args
            (logAcquire st spec (some args)) = (Except.ok m, st1) →
        firstInvalidKey m = some t →
        acquire (fuel + 1) st spec (some args)
          = (Except.error (Err.typeErrorInvalidKey (ArgKey.invalid t)), st1)) := by
  constructor
  · intro m hm
    obtain ⟨t, ht⟩ := hasInvalid_exists_first m hm
    exact ⟨t, ht, partitionArguments_firstInvalid m t ht⟩
  · intro fuel st spec provider args m st1 t hp hmiss hreal hfirst
    have herr := acquireResolve_partition_error (fun st2 s => acquire fuel st2 s none)
      (logAcquire st spec (some args)) spec provider args m st1
      (Err.typeErrorInvalidKey (ArgKey.invalid t)) hreal
      (partitionArguments_firstInvalid m t hfirst)
    cases hscc : provider.scope with
    | none =>
        simp only [acquire, hp, hscc, Option.getD]
        exact herr
    | some tag =>
        have hcnone : alookup spec (st.g.caches tag) = none := by
          simp only [scopeMiss, hscc] at hmiss
          exact hmiss
        simp only [acquire, hp, hscc, hcnone, Option.getD]
        exact herr

/-- Witness for C8: acquiring `n` with an argument dictionary holding a
tuple-like invalid key raises the `TypeError` and logs no provider call. -/
theorem claim_C8_witness :
    acquire 1 (St.ofGraph invalidArgGraph) "n"
        (some [(ArgKey.invalid "tuple", Value.int 1)])
      = (Except.error (Err.typeErrorInvalidKey (ArgKey.invalid "tuple")),
         logAcquire (St.ofGraph invalidArgGraph) "n"
           (some [(ArgKey.invalid "tuple", Value.int 1)])) :=
(claim_C8).2 0 (St.ofGraph invalidArgGraph) "n" invalidArgProviderN
  [(ArgKey.invalid "tuple", Value.int 1)] [(ArgKey.invalid "tuple", Value.int 1)]
  (logAcquire (St.ofGraph invalidArgGraph) "n" (some [(ArgKey.invalid "tuple", Value.int 1)]))
  "tuple" rfl trivial rfl rfl

/-- Claim C7: `get(spec, *positional, **keyword)` is exactly
`acquire(spec, overrides)`, where the override dictionary binds the
integer keys 0..n-1 to the positional arguments in order and each keyword
name to its value; and in `acquire` the fully resolved argument
dictionary is partitioned with the integer-keyed values becoming
positional arguments sorted ascending by key and the string-keyed entries
becoming keyword arguments. -/
theorem claim_C7 :
    (∀ (fuel : Nat) (st : St) (spec : Spec) (pos : List Value)
        (kw : List (String × Value)),
        get fuel st spec pos kw = acquire fuel st spec (some (buildArguments pos kw)))
    ∧ (∀ (pos : List Value) (kw : List (String × Value)) (j : Nat),
        alookup (ArgKey.pos (Int.ofNat j)) (buildArguments pos kw) = pos.get? j)
    ∧ (∀ (pos : List Value) (kw : List (String × Value)) (s : String),
        (kw.map Prod.fst).Nodup →
        alookup (ArgKey.name s) (buildArguments pos kw) = alookup s kw)
    ∧ (∀ (m : List (ArgKey × Value)), hasInvalidKey m = false →
        partitionArguments m
          = Except.ok ((sortPositional (positionalEntries m)).map Prod.snd,
              aupdate [] (keywordEntries m))
        ∧ List.Perm (sortPositional (positionalEntries m)) (positionalEntries m)
        ∧ List.Sorted keyLE (sortPositional (positionalEntries m))) := by
  refine ⟨fun _ _ _ _ _ => rfl, ?_, ?_, ?_⟩
  · intro pos kw j
    have hnotouch : ∀ q ∈ kw.map (fun p => (ArgKey.name p.1, p.2)),
        q.1 ≠ ArgKey.pos (Int.ofNat j) := by
      intro q hq
      obtain ⟨r, hr, hq2⟩ := List.mem_map.mp hq
      rw [← hq2]
      intro hh
      cases hh
    rw [buildArguments, alookup_aupdate_not_touched _ _ _ hnotouch]
    have h0 := alookup_enumerateFrom pos 0 j
    rw [Nat.zero_add] at h0
    exact h0
  · intro pos kw s hnodup
    exact alookup_name_aupdate_names kw (enumerateArguments pos) s hnodup
      (alookup_name_enumerateFrom pos 0 s)
  · intro m h
    exact ⟨partitionArguments_ok m h,
      List.perm_insertionSort keyLE (positionalEntries m),
      List.sorted_insertionSort keyLE (positionalEntries m)⟩

/-- Witness for C7: the scenario of `graph_tests.test_get_arguments` —
`get('function', 33, b=22)` builds the override dictionary
`{0: 33, 'b': 22}`, and partitioning it yields the positional list `[33]`
and the keyword dictionary `{'b': 22}`. -/
theorem claim_C7_witness :
    get 5 (St.ofGraph Graph.empty) "function" [Value.int 33] [("b", Value.int 22)]
      = acquire 5 (St.ofGraph Graph.empty) "function"
          (some (buildArguments [Value.int 33] [("b", Value.int 22)]))
    ∧ alookup (ArgKey.pos (Int.ofNat 0))
        (buildArguments [Value.int 33] [("b", Value.int 22)]) = some (Value.int 33)
    ∧ alookup (ArgKey.name "b")
        (buildArguments [Value.int 33] [("b", Value.int 22)]) = some (Value.int 22)
    ∧ partitionArguments (buildArguments [Value.int 33] [("b", Value.int 22)])
      = Except.ok ([Value.int 33], [("b", Value.int 22)]) := by
  refine ⟨(claim_C7).1 5 (St.ofGraph Graph.empty) "function" [Value.int 33]
      [("b", Value.int 22)], ?_, ?_, ?_⟩
  · exact ((claim_C7).2.1 [Value.int 33] [("b", Value.int 22)] 0).trans rfl
  · exact ((claim_C7).2.2.1 [Value.int 33] [("b", Value.int 22)] "b" (by simp)).trans rfl
  · exact ((claim_C7).2.2.2 (buildArguments [Value.int 33] [("b", Value.int 22)]) rfl).1.trans rfl

/-- Claim C10: the wrapper returned by a `FunctionProvider` is stateful
across its own calls: keyword arguments supplied in one call overwrite the
closed-over state, so a later call omitting them still invokes the
underlying function with the earlier values, and the wrapper state after
the omitting call is unchanged. -/
theorem claim_C10 {V R : Type} (function : List V → List (String × V) → R)
    (w : WrapperState V) (callArgs : List V) (k : String) (v : V) :
    alookup k ((wrapperInvoke function w callArgs [(k, v)]).2).kwargs = some v
    ∧ (wrapperInvoke function ((wrapperInvoke function w callArgs [(k, v)]).2) [] []).1
        = function ((wrapperInvoke function w callArgs [(k, v)]).2).args
            ((wrapperInvoke function w callArgs [(k, v)]).2).kwargs
    ∧ (wrapperInvoke function ((wrapperInvoke function w callArgs [(k, v)]).2) [] []).2
        = (wrapperInvoke function w callArgs [(k, v)]).2 := by
  refine ⟨?_, ?_, ?_⟩
  · show alookup k (aupdate w.kwargs [(k, v)]) = some v
    show alookup k (aset k v w.kwargs) = some v
    exact alookup_aset_self k v w.kwargs
  · simp [wrapperInvoke, sliceAssign, aupdate]
  · simp [wrapperInvoke, sliceAssign, aupdate]

end Wiring
